import Mathlib

set_option linter.unusedVariables false

namespace Dpll

/-! Shallow embedding of the DPLL SAT solver of this repository
(DPLLSolver.cpp, Formula.h, CNFParser.cpp).  Machine integers are
modelled as Int; the assignment vector is a list of Int with
0 = unassigned, 1 = true, -1 = false, exactly as in the C++ code.
An out-of-range vector read, undefined behaviour in C++, is modelled by
the default value 0 of List.getD; a possibly non-terminating loop is
modelled with explicit fuel, fuel exhaustion standing for divergence
(Option.none). -/

abbrev Clause := List Int

structure Formula where
  numVariables : Int
  numClauses : Int
  clauses : List Clause

deriving instance DecidableEq for Formula

/-- Loop bound used by the C++ loops running over variables 1..numVariables. -/
def Formula.nv (f : Formula) : Nat := f.numVariables.toNat

/-- Loop bound used by the C++ loop running over clauses 0..numClauses-1. -/
def Formula.nc (f : Formula) : Nat := f.numClauses.toNat

abbrev Assign := List Int

/-- Read assigns[i]; the C++ read is in bounds in every claim considered. -/
def idx (a : Assign) (i : Nat) : Int := a.getD i 0

/-- The satisfied-literal test of DPLLSolver::propagate:
(lit > 0 and val == 1) or (lit < 0 and val == -1). -/
def litSatisfied (a : Assign) (lit : Int) : Bool :=
  (lit > 0 && idx a lit.natAbs == 1) || (lit < 0 && idx a lit.natAbs == -1)

/-- The unassigned-literal test of DPLLSolver::propagate: val == 0. -/
def litUnassigned (a : Assign) (lit : Int) : Bool :=
  idx a lit.natAbs == 0

def clauseSatisfiedB (a : Assign) (c : Clause) : Bool :=
  c.any (litSatisfied a)

def unassignedLits (a : Assign) (c : Clause) : List Int :=
  c.filter (litUnassigned a)

/-- Value a unit literal forces: 1 when lit > 0 and -1 otherwise. -/
def litVal (lit : Int) : Int := if lit > 0 then 1 else -1

/-- One pass of the clause loop of DPLLSolver::propagate.  The result is
(assigns, conflictFound, changed); a conflict aborts the pass at once,
leaving all assignments already made in place, as the C++ return false does. -/
def propPass (a : Assign) : List Clause → Assign × Bool × Bool
  | [] => (a, false, false)
  | c :: rest =>
    if clauseSatisfiedB a c then propPass a rest
    else
      match unassignedLits a c with
      | [] => (a, true, false)
      | [l] =>
        let r := propPass (a.set l.natAbs (litVal l)) rest
        (r.1, r.2.1, true)
      | _ => propPass a rest

/-- The while (changed) loop of DPLLSolver::propagate.  Returns
some (assigns, returnValue); none models a run that exhausts its fuel
(only possible for formulas violating the construction contract). -/
def propagateFuel (cs : List Clause) : Nat → Assign → Option (Assign × Bool)
  | 0, _ => none
  | fuel + 1, a =>
    match propPass a cs with
    | (a', true, _) => some (a', false)
    | (a', false, true) => propagateFuel cs fuel a'
    | (a', false, false) => some (a', true)

/-- Clauses the propagator scans: formula.clauses[i] for i < numClauses. -/
def propClauses (f : Formula) : List Clause := f.clauses.take f.nc

def propagateF (f : Formula) (a : Assign) : Option (Assign × Bool) :=
  propagateFuel (propClauses f) (a.length + 1) a

/-- Ascending list [s, s+1, ..., s+n-1], the index ranges of the C++ for loops. -/
def rangeFrom (s : Nat) : Nat → List Nat
  | 0 => []
  | n + 1 => s :: rangeFrom (s + 1) n

/-- The allAssigned loop of DPLLSolver::DPLL over variables 1..numVariables. -/
def allAssigned (nv : Nat) (a : Assign) : Bool :=
  (rangeFrom 1 nv).all (fun i => idx a i != 0)

/-- The scan of DPLLSolver::pickUnassigned: first variable with assigns[i] == 0,
-1 when every variable is assigned. -/
def pickFrom (a : Assign) : List Nat → Int
  | [] => -1
  | i :: rest => if idx a i == 0 then (i : Int) else pickFrom a rest

def pickUnassigned (nv : Nat) (a : Assign) : Int :=
  pickFrom a (rangeFrom 1 nv)

/-- DPLLSolver::DPLL.  fuel bounds the recursion depth; none models a run
that exhausts it.  On both branches failing, only the branched variable is
reset to 0 (line assigns[abs(var)] = 0), exactly as in the C++ code. -/
def dpllFuel (f : Formula) : Nat → Assign → Option (Assign × Bool)
  | 0, _ => none
  | fuel + 1, a =>
    match propagateF f a with
    | none => none
    | some (a1, false) => some (a1, false)
    | some (a1, true) =>
      if allAssigned f.nv a1 then some (a1, true)
      else
        match dpllFuel f fuel (a1.set (pickUnassigned f.nv a1).natAbs 1) with
        | none => none
        | some (a2, true) => some (a2, true)
        | some (a2, false) =>
          match dpllFuel f fuel (a2.set (pickUnassigned f.nv a1).natAbs (-1)) with
          | none => none
          | some (a3, true) => some (a3, true)
          | some (a3, false) => some (a3.set (pickUnassigned f.nv a1).natAbs 0, false)

/-- The reset loop of DPLLSolver::solve: for i in 1..numVariables, assigns[i] = 0. -/
def resetLoop (a : Assign) (nv : Nat) : Assign :=
  (rangeFrom 1 nv).foldl (fun b i => b.set i 0) a

/-- DPLLSolver::solve started on an assignment vector a left by earlier use. -/
def solveFrom (f : Formula) (a : Assign) : Option (Assign × Bool) :=
  dpllFuel f (f.nv + 1) (resetLoop a f.nv)

/-- Constructing a DPLLSolver (assigns = numVariables+1 zeroes) and calling solve. -/
def solveR (f : Formula) : Option (Assign × Bool) :=
  solveFrom f (List.replicate (f.nv + 1) 0)

/-! The CNF parser (CNFParser.cpp).  A file is a list of lines, each a list
of characters; stream extraction is modelled token-wise over the
whitespace-split line. -/

def isSpaceChar (c : Char) : Bool :=
  c == ' ' || c == '\t' || c == '\n' || c == '\r'

def tokenizeAux : List Char → List Char → List (List Char)
  | [], cur => if cur == [] then [] else [cur.reverse]
  | c :: cs, cur =>
    if isSpaceChar c then
      if cur == [] then tokenizeAux cs [] else cur.reverse :: tokenizeAux cs []
    else tokenizeAux cs (c :: cur)

def tokenize (l : List Char) : List (List Char) := tokenizeAux l []

def digitsToNat (acc : Nat) : List Char → Option Nat
  | [] => some acc
  | c :: cs => if c.isDigit then digitsToNat (acc * 10 + (c.toNat - 48)) cs else none

/-- Stream extraction of an int from one token: optional sign, then digits. -/
def readInt? : List Char → Option Int
  | [] => none
  | c :: cs =>
    if c == '-' then
      match cs with
      | [] => none
      | _ :: _ => (digitsToNat 0 cs).map (fun n => -(n : Int))
    else if c == '+' then
      match cs with
      | [] => none
      | _ :: _ => (digitsToNat 0 cs).map (fun n => (n : Int))
    else (digitsToNat 0 (c :: cs)).map (fun n => (n : Int))

/-- The extraction loop of CNFParser::parseClause: push ints until a failed
extraction or the 0 sentinel, which is discarded. -/
def parseClauseTokens : List (List Char) → List Int
  | [] => []
  | t :: rest =>
    match readInt? t with
    | none => []
    | some p => if p == 0 then [] else p :: parseClauseTokens rest

def parseClause (line : List Char) : Clause :=
  parseClauseTokens (tokenize line)

/-- CNFParser::parseHeader: reads two string tokens and two ints; on a failed
int extraction the C++ stream writes 0.  The Bool is false exactly when the
C++ code prints "Invalid header" (p != "p" or cnf != "cnf"); the two ints
are written to the caller's reference arguments regardless. -/
def parseHeaderVals (line : List Char) : Int × Int × Bool :=
  let ts := tokenize line
  let pTok := ts.getD 0 []
  let cnfTok := ts.getD 1 []
  let r1 := readInt? (ts.getD 2 [])
  let r2 := if r1.isSome then readInt? (ts.getD 3 []) else none
  (r1.getD 0, r2.getD 0, pTok == ['p'] && cnfTok == ['c', 'n', 'f'])

def leadsWith : List Char → List Char → Bool
  | [], _ => true
  | _ :: _, [] => false
  | p :: ps, c :: cs => p == c && leadsWith ps cs

/-- CNFParser::isSkippable: comment line (starting with c) or empty line. -/
def isSkippable (line : List Char) : Bool :=
  leadsWith ['c'] line || line == []

/-- The getline loop of CNFParser::parse.  Note the call site
parseHeader(line, formula.numClauses, formula.numVariables) against the
declaration parseHeader(line, int &numVars, int &numClauses): the first
extracted int lands in numClauses and the second in numVariables.
A parsed clause is stored only when non-empty.  The Bool accumulates
whether "Invalid header" was ever printed. -/
def parseLines : List (List Char) → Bool → Formula → Bool → Formula × Bool
  | [], _, f, err => (f, err)
  | line :: rest, headerFound, f, err =>
    if isSkippable line then parseLines rest headerFound f err
    else if !headerFound && leadsWith ['p', ' '] line then
      parseLines rest true
        { f with numClauses := (parseHeaderVals line).1,
                 numVariables := (parseHeaderVals line).2.1 }
        (err || !(parseHeaderVals line).2.2)
    else
      if parseClause line == [] then parseLines rest headerFound f err
      else
        parseLines rest headerFound
          { f with clauses := f.clauses ++ [parseClause line] } err

/-- CNFParser::parse.  nv0 and nc0 stand for the indeterminate values of the
default-constructed Formula's int fields. -/
def CNFparse (lines : List (List Char)) (nv0 nc0 : Int) : Formula × Bool :=
  parseLines lines false { numVariables := nv0, numClauses := nc0, clauses := [] } false

/-! Brute-force CNF semantics, stated from the specification for comparison
with the engine (claim about agreement with enumeration of all total
assignments).  A total assignment is a vector of Booleans for variables
1..numVariables, variable i at position i-1. -/

def allBoolVecs : Nat → List (List Bool)
  | 0 => [[]]
  | n + 1 =>
    (allBoolVecs n).map (fun v => true :: v) ++ (allBoolVecs n).map (fun v => false :: v)

def litHolds (m : List Bool) (lit : Int) : Bool :=
  if lit > 0 then m.getD (lit.natAbs - 1) false else !(m.getD (lit.natAbs - 1) false)

def clauseHolds (m : List Bool) (c : Clause) : Bool := c.any (litHolds m)

def formulaHolds (f : Formula) (m : List Bool) : Bool := f.clauses.all (clauseHolds m)

def bruteForceHasModel (f : Formula) : Bool :=
  (allBoolVecs f.nv).any (formulaHolds f)

/-- Number of unassigned entries of the assignment vector. -/
def zeros : Assign → Nat
  | [] => 0
  | x :: t => (if x = 0 then 1 else 0) + zeros t

/-! Concrete instances used by the claims. -/

def fUnit2 : Formula := { numVariables := 1, numClauses := 2, clauses := [[1], [-1]] }

def fLeak : Formula :=
  { numVariables := 2, numClauses := 3, clauses := [[-1, 2], [-1, -2], [1, -2]] }

def fEmptyClause : Formula := { numVariables := 1, numClauses := 1, clauses := [[]] }

def fPair : Formula := { numVariables := 2, numClauses := 2, clauses := [[1, 2], [-1, -2]] }

def fUnitOne : Formula := { numVariables := 1, numClauses := 1, clauses := [[1]] }

def hdr31 : List Char := ['p', ' ', 'c', 'n', 'f', ' ', '3', ' ', '1']

def hdr11 : List Char := ['p', ' ', 'c', 'n', 'f', ' ', '1', ' ', '1']

def hdrBad : List Char := ['p', ' ', 'x', 'x', 'x', ' ', '1', ' ', '1']

def lineOne : List Char := ['1', ' ', '0']

def lineZero : List Char := ['0']

def fProp : Formula := { numVariables := 2, numClauses := 1, clauses := [[2]] }

/-! Basic lemmas about the assignment vector. -/

theorem idx_nil (i : Nat) : idx [] i = 0 := rfl

theorem idx_cons_zero (x : Int) (t : Assign) : idx (x :: t) 0 = x := rfl

theorem idx_cons_succ (x : Int) (t : Assign) (i : Nat) :
    idx (x :: t) (i + 1) = idx t i := rfl

theorem idx_oob : ∀ (a : Assign) (i : Nat), a.length ≤ i → idx a i = 0 := by
  intro a
  induction a with
  | nil => intro i _; rfl
  | cons x t ih =>
    intro i hi
    cases i with
    | zero => simp at hi
    | succ j =>
      rw [idx_cons_succ]
      exact ih j (by simpa using hi)

theorem idx_set_ne : ∀ (a : Assign) (i j : Nat) (v : Int), i ≠ j →
    idx (a.set i v) j = idx a j := by
  intro a
  induction a with
  | nil => intro i j v _; rfl
  | cons x t ih =>
    intro i j v hij
    cases i with
    | zero =>
      cases j with
      | zero => exact absurd rfl hij
      | succ j' => rfl
    | succ i' =>
      cases j with
      | zero => rfl
      | succ j' =>
        show idx (t.set i' v) j' = idx t j'
        exact ih i' j' v (by omega)

theorem idx_set_self : ∀ (a : Assign) (i : Nat) (v : Int), i < a.length →
    idx (a.set i v) i = v := by
  intro a
  induction a with
  | nil => intro i v h; simp at h
  | cons x t ih =>
    intro i v h
    cases i with
    | zero => rfl
    | succ i' => exact ih i' v (by simpa using h)

theorem idx_set_zero_self : ∀ (a : Assign) (i : Nat), idx (a.set i 0) i = 0 := by
  intro a
  induction a with
  | nil => intro i; rfl
  | cons x t ih =>
    intro i
    cases i with
    | zero => rfl
    | succ i' => exact ih i'

/-! Lemmas about the count of unassigned entries. -/

theorem zeros_le_length : ∀ a : Assign, zeros a ≤ a.length := by
  intro a
  induction a with
  | nil => exact Nat.le_refl 0
  | cons x t ih =>
    show (if x = 0 then 1 else 0) + zeros t ≤ t.length + 1
    split <;> omega

theorem zeros_set_le : ∀ (a : Assign) (i : Nat) (v : Int), v ≠ 0 →
    zeros (a.set i v) ≤ zeros a := by
  intro a
  induction a with
  | nil => intro i v _; exact Nat.le_refl 0
  | cons x t ih =>
    intro i v hv
    cases i with
    | zero =>
      show (if v = 0 then 1 else 0) + zeros t ≤ (if x = 0 then 1 else 0) + zeros t
      rw [if_neg hv]
      split <;> omega
    | succ i' =>
      show (if x = 0 then 1 else 0) + zeros (t.set i' v) ≤ (if x = 0 then 1 else 0) + zeros t
      have := ih i' v hv
      omega

theorem zeros_set_lt : ∀ (a : Assign) (i : Nat) (v : Int), v ≠ 0 → i < a.length →
    idx a i = 0 → zeros (a.set i v) < zeros a := by
  intro a
  induction a with
  | nil => intro i v _ h _; simp at h
  | cons x t ih =>
    intro i v hv hi h0
    cases i with
    | zero =>
      have hx : x = 0 := h0
      show (if v = 0 then 1 else 0) + zeros t < (if x = 0 then 1 else 0) + zeros t
      rw [if_neg hv, if_pos hx]
      omega
    | succ i' =>
      have := ih i' v hv (by simpa using hi) h0
      show (if x = 0 then 1 else 0) + zeros (t.set i' v) < (if x = 0 then 1 else 0) + zeros t
      omega

theorem zeros_set_eq_of_ne_zero : ∀ (a : Assign) (i : Nat) (v : Int), v ≠ 0 →
    idx a i ≠ 0 → zeros (a.set i v) = zeros a := by
  intro a
  induction a with
  | nil => intro i v _ _; rfl
  | cons x t ih =>
    intro i v hv h0
    cases i with
    | zero =>
      have hx : x ≠ 0 := h0
      show (if v = 0 then 1 else 0) + zeros t = (if x = 0 then 1 else 0) + zeros t
      rw [if_neg hv, if_neg hx]
    | succ i' =>
      have := ih i' v hv h0
      show (if x = 0 then 1 else 0) + zeros (t.set i' v) = (if x = 0 then 1 else 0) + zeros t
      omega

theorem zeros_le_of_extends : ∀ (a b : Assign), a.length = b.length →
    (∀ i, idx a i ≠ 0 → idx b i ≠ 0) → zeros b ≤ zeros a := by
  intro a
  induction a with
  | nil =>
    intro b hlen _
    cases b with
    | nil => exact Nat.le_refl 0
    | cons y s => simp at hlen
  | cons x t ih =>
    intro b hlen h
    cases b with
    | nil => simp at hlen
    | cons y s =>
      have htail : zeros s ≤ zeros t :=
        ih s (by simpa using hlen) (fun i hi => h (i + 1) hi)
      show (if y = 0 then 1 else 0) + zeros s ≤ (if x = 0 then 1 else 0) + zeros t
      by_cases hx : x = 0
      · rw [if_pos hx]; split <;> omega
      · have hy : y ≠ 0 := h 0 hx
        rw [if_neg hx, if_neg hy]
        omega

theorem one_le_zeros : ∀ (a : Assign) (i : Nat), i < a.length → idx a i = 0 →
    1 ≤ zeros a := by
  intro a
  induction a with
  | nil => intro i h _; simp at h
  | cons x t ih =>
    intro i hi h0
    cases i with
    | zero =>
      have hx : x = 0 := h0
      show 1 ≤ (if x = 0 then 1 else 0) + zeros t
      rw [if_pos hx]; omega
    | succ i' =>
      have := ih i' (by simpa using hi) h0
      show 1 ≤ (if x = 0 then 1 else 0) + zeros t
      split <;> omega

theorem two_le_zeros : ∀ (a : Assign) (i j : Nat), i < j → j < a.length →
    idx a i = 0 → idx a j = 0 → 2 ≤ zeros a := by
  intro a
  induction a with
  | nil => intro i j _ h _ _; simp at h
  | cons x t ih =>
    intro i j hij hj h0i h0j
    cases i with
    | zero =>
      have hx : x = 0 := h0i
      cases j with
      | zero => omega
      | succ j' =>
        have h1 : 1 ≤ zeros t := one_le_zeros t j' (by simpa using hj) h0j
        show 2 ≤ (if x = 0 then 1 else 0) + zeros t
        rw [if_pos hx]; omega
    | succ i' =>
      cases j with
      | zero => omega
      | succ j' =>
        have := ih i' j' (by omega) (by simpa using hj) h0i h0j
        show 2 ≤ (if x = 0 then 1 else 0) + zeros t
        split <;> omega

/-! Lemmas about the loop index ranges. -/

theorem mem_rangeFrom : ∀ (n s i : Nat), i ∈ rangeFrom s n ↔ s ≤ i ∧ i < s + n := by
  intro n
  induction n with
  | zero => intro s i; simp [rangeFrom]
  | succ m ih =>
    intro s i
    simp only [rangeFrom, List.mem_cons, ih (s + 1) i]
    omega

theorem idx_replicate : ∀ (n i : Nat), idx (List.replicate n (0 : Int)) i = 0 := by
  intro n
  induction n with
  | zero => intro i; rfl
  | succ m ih =>
    intro i
    cases i with
    | zero => rfl
    | succ j => exact ih j

theorem zeros_replicate : ∀ n : Nat, zeros (List.replicate n (0 : Int)) = n := by
  intro n
  induction n with
  | zero => rfl
  | succ m ih =>
    show (if (0 : Int) = 0 then 1 else 0) + zeros (List.replicate m 0) = m + 1
    rw [if_pos rfl, ih]
    omega

theorem list_eq_of_idx : ∀ (a b : Assign), a.length = b.length →
    (∀ i, idx a i = idx b i) → a = b := by
  intro a
  induction a with
  | nil =>
    intro b hlen _
    cases b with
    | nil => rfl
    | cons y s => simp at hlen
  | cons x t ih =>
    intro b hlen h
    cases b with
    | nil => simp at hlen
    | cons y s =>
      have hx : x = y := h 0
      have : t = s := ih s (by simpa using hlen) (fun i => h (i + 1))
      rw [hx, this]

/-! Step lemmas reducing one propagation-pass iteration. -/

theorem litVal_ne_zero (l : Int) : litVal l ≠ 0 := by
  unfold litVal
  split <;> norm_num

theorem propPass_cons_sat (a : Assign) (c : Clause) (rest : List Clause)
    (hs : clauseSatisfiedB a c = true) :
    propPass a (c :: rest) = propPass a rest := by
  rw [propPass, hs]
  rfl

theorem propPass_cons_conflict (a : Assign) (c : Clause) (rest : List Clause)
    (hs : clauseSatisfiedB a c = false) (hu : unassignedLits a c = []) :
    propPass a (c :: rest) = (a, true, false) := by
  rw [propPass, hs, hu]
  rfl

theorem propPass_cons_unit (a : Assign) (c : Clause) (rest : List Clause) (l : Int)
    (hs : clauseSatisfiedB a c = false) (hu : unassignedLits a c = [l]) :
    propPass a (c :: rest) =
      ((propPass (a.set l.natAbs (litVal l)) rest).1,
       (propPass (a.set l.natAbs (litVal l)) rest).2.1, true) := by
  rw [propPass, hs, hu]
  rfl

theorem propPass_cons_many (a : Assign) (c : Clause) (rest : List Clause)
    (l1 l2 : Int) (ls : List Int)
    (hs : clauseSatisfiedB a c = false) (hu : unassignedLits a c = l1 :: l2 :: ls) :
    propPass a (c :: rest) = propPass a rest := by
  rw [propPass, hs, hu]
  rfl

theorem unit_unassigned (a : Assign) (c : Clause) (l : Int)
    (hu : unassignedLits a c = [l]) : idx a l.natAbs = 0 := by
  have hl : l ∈ unassignedLits a c := by rw [hu]; exact List.mem_singleton.mpr rfl
  simpa [litUnassigned] using List.of_mem_filter hl

theorem unit_mem (a : Assign) (c : Clause) (l : Int)
    (hu : unassignedLits a c = [l]) : l ∈ c := by
  have hl : l ∈ unassignedLits a c := by rw [hu]; exact List.mem_singleton.mpr rfl
  exact List.mem_of_mem_filter hl

/-! Properties of one propagation pass. -/

theorem propPass_length : ∀ (cs : List Clause) (a : Assign),
    (propPass a cs).1.length = a.length := by
  intro cs
  induction cs with
  | nil => intro a; rfl
  | cons c rest ih =>
    intro a
    cases hs : clauseSatisfiedB a c with
    | true => rw [propPass_cons_sat a c rest hs]; exact ih a
    | false =>
      rcases hu : unassignedLits a c with _ | ⟨l, _ | ⟨l2, ls⟩⟩
      · rw [propPass_cons_conflict a c rest hs hu]
      · rw [propPass_cons_unit a c rest l hs hu]
        show (propPass (a.set l.natAbs (litVal l)) rest).1.length = a.length
        rw [ih, List.length_set]
      · rw [propPass_cons_many a c rest l l2 ls hs hu]; exact ih a

theorem propPass_extends : ∀ (cs : List Clause) (a : Assign) (i : Nat),
    idx a i ≠ 0 → idx (propPass a cs).1 i = idx a i := by
  intro cs
  induction cs with
  | nil => intro a i _; rfl
  | cons c rest ih =>
    intro a i hi
    cases hs : clauseSatisfiedB a c with
    | true => rw [propPass_cons_sat a c rest hs]; exact ih a i hi
    | false =>
      rcases hu : unassignedLits a c with _ | ⟨l, _ | ⟨l2, ls⟩⟩
      · rw [propPass_cons_conflict a c rest hs hu]
      · rw [propPass_cons_unit a c rest l hs hu]
        have h0 : idx a l.natAbs = 0 := unit_unassigned a c l hu
        have hne : l.natAbs ≠ i := fun he => hi (he ▸ h0)
        show idx (propPass (a.set l.natAbs (litVal l)) rest).1 i = idx a i
        rw [ih _ i (by rw [idx_set_ne a _ i _ hne]; exact hi),
          idx_set_ne a _ i _ hne]
      · rw [propPass_cons_many a c rest l l2 ls hs hu]; exact ih a i hi

theorem propPass_zeros_le : ∀ (cs : List Clause) (a : Assign),
    zeros (propPass a cs).1 ≤ zeros a := by
  intro cs
  induction cs with
  | nil => intro a; exact Nat.le_refl _
  | cons c rest ih =>
    intro a
    cases hs : clauseSatisfiedB a c with
    | true => rw [propPass_cons_sat a c rest hs]; exact ih a
    | false =>
      rcases hu : unassignedLits a c with _ | ⟨l, _ | ⟨l2, ls⟩⟩
      · rw [propPass_cons_conflict a c rest hs hu]
      · rw [propPass_cons_unit a c rest l hs hu]
        calc zeros (propPass (a.set l.natAbs (litVal l)) rest).1
            ≤ zeros (a.set l.natAbs (litVal l)) := ih _
          _ ≤ zeros a := zeros_set_le a _ _ (litVal_ne_zero l)
      · rw [propPass_cons_many a c rest l l2 ls hs hu]; exact ih a

theorem propPass_frame : ∀ (cs : List Clause) (a : Assign) (i : Nat),
    (∀ c ∈ cs, ∀ l ∈ c, l.natAbs ≠ i) → idx (propPass a cs).1 i = idx a i := by
  intro cs
  induction cs with
  | nil => intro a i _; rfl
  | cons c rest ih =>
    intro a i hfr
    have hrest : ∀ c' ∈ rest, ∀ l ∈ c', l.natAbs ≠ i :=
      fun c' hc' => hfr c' (List.mem_cons_of_mem c hc')
    cases hs : clauseSatisfiedB a c with
    | true => rw [propPass_cons_sat a c rest hs]; exact ih a i hrest
    | false =>
      rcases hu : unassignedLits a c with _ | ⟨l, _ | ⟨l2, ls⟩⟩
      · rw [propPass_cons_conflict a c rest hs hu]
      · rw [propPass_cons_unit a c rest l hs hu]
        have hne : l.natAbs ≠ i :=
          hfr c (List.mem_cons_self c rest) l (unit_mem a c l hu)
        show idx (propPass (a.set l.natAbs (litVal l)) rest).1 i = idx a i
        rw [ih _ i hrest, idx_set_ne a _ i _ hne]
      · rw [propPass_cons_many a c rest l l2 ls hs hu]; exact ih a i hrest

theorem propPass_conflict_of_empty : ∀ (cs : List Clause) (a : Assign),
    ([] : Clause) ∈ cs → (propPass a cs).2.1 = true := by
  intro cs
  induction cs with
  | nil => intro a h; simp at h
  | cons c rest ih =>
    intro a h
    rcases List.mem_cons.mp h with he | he
    · have hs : clauseSatisfiedB a c = false := by rw [← he]; rfl
      have hu : unassignedLits a c = [] := by rw [← he]; rfl
      rw [propPass_cons_conflict a c rest hs hu]
    · cases hs : clauseSatisfiedB a c with
      | true => rw [propPass_cons_sat a c rest hs]; exact ih a he
      | false =>
        rcases hu : unassignedLits a c with _ | ⟨l, _ | ⟨l2, ls⟩⟩
        · rw [propPass_cons_conflict a c rest hs hu]
        · rw [propPass_cons_unit a c rest l hs hu]
          exact ih _ he
        · rw [propPass_cons_many a c rest l l2 ls hs hu]; exact ih a he

theorem propPass_zeros_lt : ∀ (cs : List Clause) (a a' : Assign) (conf : Bool),
    (∀ c ∈ cs, ∀ l ∈ c, l.natAbs < a.length) →
    propPass a cs = (a', conf, true) → zeros a' < zeros a := by
  intro cs
  induction cs with
  | nil =>
    intro a a' conf _ h
    simp [propPass] at h
  | cons c rest ih =>
    intro a a' conf hwf h
    have hwfrest : ∀ c' ∈ rest, ∀ l ∈ c', l.natAbs < a.length :=
      fun c' hc' => hwf c' (List.mem_cons_of_mem c hc')
    cases hs : clauseSatisfiedB a c with
    | true =>
      rw [propPass_cons_sat a c rest hs] at h
      exact ih a a' conf hwfrest h
    | false =>
      rcases hu : unassignedLits a c with _ | ⟨l, _ | ⟨l2, ls⟩⟩
      · rw [propPass_cons_conflict a c rest hs hu] at h
        simp at h
      · rw [propPass_cons_unit a c rest l hs hu] at h
        have ha' : a' = (propPass (a.set l.natAbs (litVal l)) rest).1 :=
          (congrArg Prod.fst h).symm
        have hlt : zeros (a.set l.natAbs (litVal l)) < zeros a :=
          zeros_set_lt a l.natAbs (litVal l) (litVal_ne_zero l)
            (hwf c (List.mem_cons_self c rest) l (unit_mem a c l hu))
            (unit_unassigned a c l hu)
        calc zeros a' = zeros (propPass (a.set l.natAbs (litVal l)) rest).1 := by rw [ha']
          _ ≤ zeros (a.set l.natAbs (litVal l)) := propPass_zeros_le _ _
          _ < zeros a := hlt
      · rw [propPass_cons_many a c rest l l2 ls hs hu] at h
        exact ih a a' conf hwfrest h

theorem propPass_fixpoint : ∀ (cs : List Clause) (a a' : Assign),
    propPass a cs = (a', false, false) →
    a' = a ∧ ∀ c ∈ cs, clauseSatisfiedB a c = true ∨ 2 ≤ (unassignedLits a c).length := by
  intro cs
  induction cs with
  | nil =>
    intro a a' h
    have : a = a' := congrArg Prod.fst h
    exact ⟨this.symm, by intro c hc; simp at hc⟩
  | cons c rest ih =>
    intro a a' h
    cases hs : clauseSatisfiedB a c with
    | true =>
      rw [propPass_cons_sat a c rest hs] at h
      obtain ⟨ha, hrest⟩ := ih a a' h
      refine ⟨ha, ?_⟩
      intro c' hc'
      rcases List.mem_cons.mp hc' with he | he
      · exact Or.inl (he ▸ hs)
      · exact hrest c' he
    | false =>
      rcases hu : unassignedLits a c with _ | ⟨l, _ | ⟨l2, ls⟩⟩
      · rw [propPass_cons_conflict a c rest hs hu] at h
        simp at h
      · rw [propPass_cons_unit a c rest l hs hu] at h
        simp at h
      · rw [propPass_cons_many a c rest l l2 ls hs hu] at h
        obtain ⟨ha, hrest⟩ := ih a a' h
        refine ⟨ha, ?_⟩
        intro c' hc'
        rcases List.mem_cons.mp hc' with he | he
        · refine Or.inr ?_
          rw [← he] at hu
          rw [hu]
          simp
        · exact hrest c' he

/-! Properties of the full propagation loop. -/

theorem propagateFuel_succ_conflict (cs : List Clause) (fuel : Nat) (a a1 : Assign)
    (ch : Bool) (hp : propPass a cs = (a1, true, ch)) :
    propagateFuel cs (fuel + 1) a = some (a1, false) := by
  rw [propagateFuel, hp]

theorem propagateFuel_succ_changed (cs : List Clause) (fuel : Nat) (a a1 : Assign)
    (hp : propPass a cs = (a1, false, true)) :
    propagateFuel cs (fuel + 1) a = propagateFuel cs fuel a1 := by
  rw [propagateFuel, hp]

theorem propagateFuel_succ_fix (cs : List Clause) (fuel : Nat) (a a1 : Assign)
    (hp : propPass a cs = (a1, false, false)) :
    propagateFuel cs (fuel + 1) a = some (a1, true) := by
  rw [propagateFuel, hp]

theorem propagateFuel_length : ∀ (cs : List Clause) (fuel : Nat) (a a' : Assign) (r : Bool),
    propagateFuel cs fuel a = some (a', r) → a'.length = a.length := by
  intro cs fuel
  induction fuel with
  | zero => intro a a' r h; simp [propagateFuel] at h
  | succ n ih =>
    intro a a' r h
    rcases hp : propPass a cs with ⟨a1, (_ | _), (_ | _)⟩
    · rw [propagateFuel_succ_fix cs n a a1 hp] at h
      simp only [Option.some.injEq, Prod.mk.injEq] at h
      obtain ⟨rfl, rfl⟩ := h
      have := propPass_length cs a
      rw [hp] at this
      exact this
    · rw [propagateFuel_succ_changed cs n a a1 hp] at h
      have h1 := ih a1 a' r h
      have h2 := propPass_length cs a
      rw [hp] at h2
      rw [h1, h2]
    · rw [propagateFuel_succ_conflict cs n a a1 false hp] at h
      simp only [Option.some.injEq, Prod.mk.injEq] at h
      obtain ⟨rfl, rfl⟩ := h
      have := propPass_length cs a
      rw [hp] at this
      exact this
    · rw [propagateFuel_succ_conflict cs n a a1 true hp] at h
      simp only [Option.some.injEq, Prod.mk.injEq] at h
      obtain ⟨rfl, rfl⟩ := h
      have := propPass_length cs a
      rw [hp] at this
      exact this

theorem propagateFuel_extends : ∀ (cs : List Clause) (fuel : Nat) (a a' : Assign) (r : Bool),
    propagateFuel cs fuel a = some (a', r) →
    ∀ i, idx a i ≠ 0 → idx a' i = idx a i := by
  intro cs fuel
  induction fuel with
  | zero => intro a a' r h; simp [propagateFuel] at h
  | succ n ih =>
    intro a a' r h i hi
    have hpp := propPass_extends cs a i hi
    rcases hp : propPass a cs with ⟨a1, (_ | _), (_ | _)⟩ <;> rw [hp] at hpp
    · rw [propagateFuel_succ_fix cs n a a1 hp] at h
      simp only [Option.some.injEq, Prod.mk.injEq] at h
      obtain ⟨rfl, rfl⟩ := h
      exact hpp
    · rw [propagateFuel_succ_changed cs n a a1 hp] at h
      rw [ih a1 a' r h i (by rw [hpp]; exact hi), hpp]
    · rw [propagateFuel_succ_conflict cs n a a1 false hp] at h
      simp only [Option.some.injEq, Prod.mk.injEq] at h
      obtain ⟨rfl, rfl⟩ := h
      exact hpp
    · rw [propagateFuel_succ_conflict cs n a a1 true hp] at h
      simp only [Option.some.injEq, Prod.mk.injEq] at h
      obtain ⟨rfl, rfl⟩ := h
      exact hpp

theorem propagateFuel_zeros_le : ∀ (cs : List Clause) (fuel : Nat) (a a' : Assign) (r : Bool),
    propagateFuel cs fuel a = some (a', r) → zeros a' ≤ zeros a := by
  intro cs fuel
  induction fuel with
  | zero => intro a a' r h; simp [propagateFuel] at h
  | succ n ih =>
    intro a a' r h
    have hpp := propPass_zeros_le cs a
    rcases hp : propPass a cs with ⟨a1, (_ | _), (_ | _)⟩ <;> rw [hp] at hpp
    · rw [propagateFuel_succ_fix cs n a a1 hp] at h
      simp only [Option.some.injEq, Prod.mk.injEq] at h
      obtain ⟨rfl, rfl⟩ := h
      exact hpp
    · rw [propagateFuel_succ_changed cs n a a1 hp] at h
      exact Nat.le_trans (ih a1 a' r h) hpp
    · rw [propagateFuel_succ_conflict cs n a a1 false hp] at h
      simp only [Option.some.injEq, Prod.mk.injEq] at h
      obtain ⟨rfl, rfl⟩ := h
      exact hpp
    · rw [propagateFuel_succ_conflict cs n a a1 true hp] at h
      simp only [Option.some.injEq, Prod.mk.injEq] at h
      obtain ⟨rfl, rfl⟩ := h
      exact hpp

theorem propagateFuel_frame : ∀ (cs : List Clause) (fuel : Nat) (a a' : Assign) (r : Bool)
    (i : Nat), (∀ c ∈ cs, ∀ l ∈ c, l.natAbs ≠ i) →
    propagateFuel cs fuel a = some (a', r) → idx a' i = idx a i := by
  intro cs fuel
  induction fuel with
  | zero => intro a a' r i _ h; simp [propagateFuel] at h
  | succ n ih =>
    intro a a' r i hfr h
    have hpp := propPass_frame cs a i hfr
    rcases hp : propPass a cs with ⟨a1, (_ | _), (_ | _)⟩ <;> rw [hp] at hpp
    · rw [propagateFuel_succ_fix cs n a a1 hp] at h
      simp only [Option.some.injEq, Prod.mk.injEq] at h
      obtain ⟨rfl, rfl⟩ := h
      exact hpp
    · rw [propagateFuel_succ_changed cs n a a1 hp] at h
      rw [ih a1 a' r i hfr h, hpp]
    · rw [propagateFuel_succ_conflict cs n a a1 false hp] at h
      simp only [Option.some.injEq, Prod.mk.injEq] at h
      obtain ⟨rfl, rfl⟩ := h
      exact hpp
    · rw [propagateFuel_succ_conflict cs n a a1 true hp] at h
      simp only [Option.some.injEq, Prod.mk.injEq] at h
      obtain ⟨rfl, rfl⟩ := h
      exact hpp

theorem propagateFuel_success : ∀ (cs : List Clause) (fuel : Nat) (a a' : Assign),
    propagateFuel cs fuel a = some (a', true) →
    ∀ c ∈ cs, clauseSatisfiedB a' c = true ∨ 2 ≤ (unassignedLits a' c).length := by
  intro cs fuel
  induction fuel with
  | zero => intro a a' h; simp [propagateFuel] at h
  | succ n ih =>
    intro a a' h
    rcases hp : propPass a cs with ⟨a1, (_ | _), (_ | _)⟩
    · rw [propagateFuel_succ_fix cs n a a1 hp] at h
      simp only [Option.some.injEq, Prod.mk.injEq] at h
      obtain ⟨rfl, -⟩ := h
      obtain ⟨rfl, hprop⟩ := propPass_fixpoint cs a a1 hp
      exact hprop
    · rw [propagateFuel_succ_changed cs n a a1 hp] at h
      exact ih a1 a' h
    · rw [propagateFuel_succ_conflict cs n a a1 false hp] at h
      simp at h
    · rw [propagateFuel_succ_conflict cs n a a1 true hp] at h
      simp at h

theorem propagateFuel_suff : ∀ (cs : List Clause) (fuel : Nat) (a : Assign),
    (∀ c ∈ cs, ∀ l ∈ c, l.natAbs < a.length) → zeros a < fuel →
    (propagateFuel cs fuel a).isSome = true := by
  intro cs fuel
  induction fuel with
  | zero => intro a _ h; omega
  | succ n ih =>
    intro a hwf hz
    rcases hp : propPass a cs with ⟨a1, (_ | _), (_ | _)⟩
    · rw [propagateFuel_succ_fix cs n a a1 hp]; rfl
    · rw [propagateFuel_succ_changed cs n a a1 hp]
      have hlen : a1.length = a.length := by
        have := propPass_length cs a
        rw [hp] at this
        exact this
      have hlt : zeros a1 < zeros a := propPass_zeros_lt cs a a1 false hwf hp
      exact ih a1 (by rw [hlen]; exact hwf) (by omega)
    · rw [propagateFuel_succ_conflict cs n a a1 false hp]; rfl
    · rw [propagateFuel_succ_conflict cs n a a1 true hp]; rfl

theorem propagateFuel_conflict_of_empty : ∀ (cs : List Clause) (fuel : Nat) (a : Assign),
    ([] : Clause) ∈ cs →
    ∃ a1, propagateFuel cs (fuel + 1) a = some (a1, false) := by
  intro cs fuel a hmem
  have hc := propPass_conflict_of_empty cs a hmem
  rcases hp : propPass a cs with ⟨a1, conf, ch⟩
  rw [hp] at hc
  have : conf = true := hc
  subst this
  exact ⟨a1, propagateFuel_succ_conflict cs fuel a a1 ch hp⟩

/-! The same properties for propagate as DPLL invokes it. -/

theorem propagateF_length (f : Formula) (a a' : Assign) (r : Bool)
    (h : propagateF f a = some (a', r)) : a'.length = a.length :=
  propagateFuel_length (propClauses f) (a.length + 1) a a' r h

theorem propagateF_extends (f : Formula) (a a' : Assign) (r : Bool)
    (h : propagateF f a = some (a', r)) (i : Nat) (hi : idx a i ≠ 0) :
    idx a' i = idx a i :=
  propagateFuel_extends (propClauses f) (a.length + 1) a a' r h i hi

theorem propagateF_zeros_le (f : Formula) (a a' : Assign) (r : Bool)
    (h : propagateF f a = some (a', r)) : zeros a' ≤ zeros a :=
  propagateFuel_zeros_le (propClauses f) (a.length + 1) a a' r h

theorem propagateF_frame (f : Formula) (a a' : Assign) (r : Bool) (i : Nat)
    (hfr : ∀ c ∈ propClauses f, ∀ l ∈ c, l.natAbs ≠ i)
    (h : propagateF f a = some (a', r)) : idx a' i = idx a i :=
  propagateFuel_frame (propClauses f) (a.length + 1) a a' r i hfr h

theorem propagateF_success (f : Formula) (a a' : Assign)
    (h : propagateF f a = some (a', true)) :
    ∀ c ∈ propClauses f, clauseSatisfiedB a' c = true ∨ 2 ≤ (unassignedLits a' c).length :=
  propagateFuel_success (propClauses f) (a.length + 1) a a' h

theorem propagateF_suff (f : Formula) (a : Assign)
    (hwf : ∀ c ∈ propClauses f, ∀ l ∈ c, l.natAbs < a.length) :
    (propagateF f a).isSome = true :=
  propagateFuel_suff (propClauses f) (a.length + 1) a hwf
    (Nat.lt_succ_of_le (zeros_le_length a))

theorem propagateF_conflict_of_empty (f : Formula) (a : Assign)
    (hmem : ([] : Clause) ∈ propClauses f) :
    ∃ a1, propagateF f a = some (a1, false) :=
  propagateFuel_conflict_of_empty (propClauses f) a.length a hmem

/-! Properties of the decision scan and the completeness check. -/

theorem pickFrom_spec : ∀ (l : List Nat) (a : Assign), (∃ i ∈ l, idx a i = 0) →
    ∃ j ∈ l, pickFrom a l = (j : Int) ∧ idx a j = 0 := by
  intro l
  induction l with
  | nil => intro a h; simp at h
  | cons i t ih =>
    intro a h
    cases hb : (idx a i == 0) with
    | true =>
      refine ⟨i, List.mem_cons_self i t, ?_, by simpa using hb⟩
      rw [pickFrom, hb]
      rfl
    | false =>
      have hi : idx a i ≠ 0 := by simpa using hb
      obtain ⟨j, hj, hj0⟩ := h
      rcases List.mem_cons.mp hj with he | he
      · exact absurd (he ▸ hj0) hi
      · obtain ⟨j', hj', he', h0'⟩ := ih a ⟨j, he, hj0⟩
        refine ⟨j', List.mem_cons_of_mem i hj', ?_, h0'⟩
        rw [pickFrom, hb]
        exact he'

theorem pickFrom_shape : ∀ (l : List Nat) (a : Assign),
    pickFrom a l = -1 ∨ ∃ j ∈ l, pickFrom a l = (j : Int) := by
  intro l
  induction l with
  | nil => intro a; exact Or.inl rfl
  | cons i t ih =>
    intro a
    cases hb : (idx a i == 0) with
    | true =>
      refine Or.inr ⟨i, List.mem_cons_self i t, ?_⟩
      rw [pickFrom, hb]
      rfl
    | false =>
      rcases ih a with h | ⟨j, hj, he⟩
      · refine Or.inl ?_
        rw [pickFrom, hb]
        exact h
      · refine Or.inr ⟨j, List.mem_cons_of_mem i hj, ?_⟩
        rw [pickFrom, hb]
        exact he

theorem pick_natAbs_pos (nv : Nat) (a : Assign) :
    1 ≤ (pickUnassigned nv a).natAbs := by
  rcases pickFrom_shape (rangeFrom 1 nv) a with h | ⟨j, hj, he⟩
  · unfold pickUnassigned
    rw [h]
    decide
  · unfold pickUnassigned
    rw [he]
    have := (mem_rangeFrom nv 1 j).mp hj
    simpa using this.1

theorem allAssigned_false_exists (nv : Nat) (a : Assign)
    (h : allAssigned nv a = false) : ∃ i ∈ rangeFrom 1 nv, idx a i = 0 := by
  by_contra hno
  push_neg at hno
  have hall : allAssigned nv a = true := by
    unfold allAssigned
    rw [List.all_eq_true]
    intro i hi
    simpa [bne_iff_ne] using hno i hi
  rw [hall] at h
  simp at h

theorem allAssigned_true_idx (nv : Nat) (a : Assign) (h : allAssigned nv a = true)
    (i : Nat) (h1 : 1 ≤ i) (h2 : i ≤ nv) : idx a i ≠ 0 := by
  unfold allAssigned at h
  rw [List.all_eq_true] at h
  have hm : i ∈ rangeFrom 1 nv := (mem_rangeFrom nv 1 i).mpr ⟨h1, by omega⟩
  simpa [bne_iff_ne] using h i hm

theorem pick_spec (nv : Nat) (a : Assign) (h : allAssigned nv a = false) :
    ∃ j, 1 ≤ j ∧ j ≤ nv ∧ (pickUnassigned nv a).natAbs = j ∧ idx a j = 0 := by
  obtain ⟨i, hi, h0⟩ := allAssigned_false_exists nv a h
  obtain ⟨j, hj, he, hj0⟩ := pickFrom_spec (rangeFrom 1 nv) a ⟨i, hi, h0⟩
  have hr := (mem_rangeFrom nv 1 j).mp hj
  refine ⟨j, hr.1, by omega, ?_, hj0⟩
  unfold pickUnassigned
  rw [he]
  exact Int.natAbs_ofNat j

/-! Step lemmas reducing one node of the DPLL recursion. -/

theorem dpllFuel_succ_none (f : Formula) (fuel : Nat) (a : Assign)
    (hp : propagateF f a = none) : dpllFuel f (fuel + 1) a = none := by
  rw [dpllFuel, hp]

theorem dpllFuel_succ_conflict (f : Formula) (fuel : Nat) (a a1 : Assign)
    (hp : propagateF f a = some (a1, false)) :
    dpllFuel f (fuel + 1) a = some (a1, false) := by
  rw [dpllFuel, hp]

theorem dpllFuel_succ_sat (f : Formula) (fuel : Nat) (a a1 : Assign)
    (hp : propagateF f a = some (a1, true)) (hA : allAssigned f.nv a1 = true) :
    dpllFuel f (fuel + 1) a = some (a1, true) := by
  simp only [dpllFuel, hp]
  rw [hA]
  rfl

theorem dpllFuel_succ_branch (f : Formula) (fuel : Nat) (a a1 : Assign)
    (hp : propagateF f a = some (a1, true)) (hA : allAssigned f.nv a1 = false) :
    dpllFuel f (fuel + 1) a =
      match dpllFuel f fuel (a1.set (pickUnassigned f.nv a1).natAbs 1) with
      | none => none
      | some (a2, true) => some (a2, true)
      | some (a2, false) =>
        match dpllFuel f fuel (a2.set (pickUnassigned f.nv a1).natAbs (-1)) with
        | none => none
        | some (a3, true) => some (a3, true)
        | some (a3, false) => some (a3.set (pickUnassigned f.nv a1).natAbs 0, false) := by
  simp only [dpllFuel, hp]
  rw [hA]
  rfl

theorem dpllFuel_succ_branch_none1 (f : Formula) (fuel : Nat) (a a1 : Assign)
    (hp : propagateF f a = some (a1, true)) (hA : allAssigned f.nv a1 = false)
    (h1 : dpllFuel f fuel (a1.set (pickUnassigned f.nv a1).natAbs 1) = none) :
    dpllFuel f (fuel + 1) a = none := by
  rw [dpllFuel_succ_branch f fuel a a1 hp hA, h1]

theorem dpllFuel_succ_branch_sat1 (f : Formula) (fuel : Nat) (a a1 a2 : Assign)
    (hp : propagateF f a = some (a1, true)) (hA : allAssigned f.nv a1 = false)
    (h1 : dpllFuel f fuel (a1.set (pickUnassigned f.nv a1).natAbs 1) = some (a2, true)) :
    dpllFuel f (fuel + 1) a = some (a2, true) := by
  rw [dpllFuel_succ_branch f fuel a a1 hp hA, h1]

theorem dpllFuel_succ_branch_none2 (f : Formula) (fuel : Nat) (a a1 a2 : Assign)
    (hp : propagateF f a = some (a1, true)) (hA : allAssigned f.nv a1 = false)
    (h1 : dpllFuel f fuel (a1.set (pickUnassigned f.nv a1).natAbs 1) = some (a2, false))
    (h2 : dpllFuel f fuel (a2.set (pickUnassigned f.nv a1).natAbs (-1)) = none) :
    dpllFuel f (fuel + 1) a = none := by
  rw [dpllFuel_succ_branch f fuel a a1 hp hA, h1]
  show (match dpllFuel f fuel (a2.set (pickUnassigned f.nv a1).natAbs (-1)) with
    | none => none
    | some (a3, true) => some (a3, true)
    | some (a3, false) => some (a3.set (pickUnassigned f.nv a1).natAbs 0, false)) = _
  rw [h2]

theorem dpllFuel_succ_branch_sat2 (f : Formula) (fuel : Nat) (a a1 a2 a3 : Assign)
    (hp : propagateF f a = some (a1, true)) (hA : allAssigned f.nv a1 = false)
    (h1 : dpllFuel f fuel (a1.set (pickUnassigned f.nv a1).natAbs 1) = some (a2, false))
    (h2 : dpllFuel f fuel (a2.set (pickUnassigned f.nv a1).natAbs (-1)) = some (a3, true)) :
    dpllFuel f (fuel + 1) a = some (a3, true) := by
  rw [dpllFuel_succ_branch f fuel a a1 hp hA, h1]
  show (match dpllFuel f fuel (a2.set (pickUnassigned f.nv a1).natAbs (-1)) with
    | none => none
    | some (a3, true) => some (a3, true)
    | some (a3, false) => some (a3.set (pickUnassigned f.nv a1).natAbs 0, false)) = _
  rw [h2]

theorem dpllFuel_succ_branch_unsat (f : Formula) (fuel : Nat) (a a1 a2 a3 : Assign)
    (hp : propagateF f a = some (a1, true)) (hA : allAssigned f.nv a1 = false)
    (h1 : dpllFuel f fuel (a1.set (pickUnassigned f.nv a1).natAbs 1) = some (a2, false))
    (h2 : dpllFuel f fuel (a2.set (pickUnassigned f.nv a1).natAbs (-1)) = some (a3, false)) :
    dpllFuel f (fuel + 1) a = some (a3.set (pickUnassigned f.nv a1).natAbs 0, false) := by
  rw [dpllFuel_succ_branch f fuel a a1 hp hA, h1]
  show (match dpllFuel f fuel (a2.set (pickUnassigned f.nv a1).natAbs (-1)) with
    | none => none
    | some (a3, true) => some (a3, true)
    | some (a3, false) => some (a3.set (pickUnassigned f.nv a1).natAbs 0, false)) = _
  rw [h2]

/-! Global properties of the DPLL recursion. -/

theorem dpllFuel_length : ∀ (fuel : Nat) (f : Formula) (a a' : Assign) (r : Bool),
    dpllFuel f fuel a = some (a', r) → a'.length = a.length := by
  intro fuel
  induction fuel with
  | zero => intro f a a' r h; simp [dpllFuel] at h
  | succ n ih =>
    intro f a a' r h
    rcases hprop : propagateF f a with _ | ⟨a1, (_ | _)⟩
    · rw [dpllFuel_succ_none f n a hprop] at h; cases h
    · rw [dpllFuel_succ_conflict f n a a1 hprop] at h
      simp only [Option.some.injEq, Prod.mk.injEq] at h
      obtain ⟨rfl, rfl⟩ := h
      exact propagateF_length f a _ false hprop
    · have hl1 : a1.length = a.length := propagateF_length f a a1 true hprop
      cases hA : allAssigned f.nv a1 with
      | true =>
        rw [dpllFuel_succ_sat f n a a1 hprop hA] at h
        simp only [Option.some.injEq, Prod.mk.injEq] at h
        obtain ⟨rfl, rfl⟩ := h
        exact hl1
      | false =>
        rcases h1 : dpllFuel f n (a1.set (pickUnassigned f.nv a1).natAbs 1)
            with _ | ⟨a2, (_ | _)⟩
        · rw [dpllFuel_succ_branch_none1 f n a a1 hprop hA h1] at h; cases h
        · have hl2 := ih f _ _ _ h1
          simp only [List.length_set] at hl2
          rcases h2 : dpllFuel f n (a2.set (pickUnassigned f.nv a1).natAbs (-1))
              with _ | ⟨a3, (_ | _)⟩
          · rw [dpllFuel_succ_branch_none2 f n a a1 a2 hprop hA h1 h2] at h; cases h
          · have hl3 := ih f _ _ _ h2
            simp only [List.length_set] at hl3
            rw [dpllFuel_succ_branch_unsat f n a a1 a2 a3 hprop hA h1 h2] at h
            simp only [Option.some.injEq, Prod.mk.injEq] at h
            obtain ⟨rfl, rfl⟩ := h
            simp only [List.length_set]
            omega
          · have hl3 := ih f _ _ _ h2
            simp only [List.length_set] at hl3
            rw [dpllFuel_succ_branch_sat2 f n a a1 a2 a3 hprop hA h1 h2] at h
            simp only [Option.some.injEq, Prod.mk.injEq] at h
            obtain ⟨rfl, rfl⟩ := h
            omega
        · have hl2 := ih f _ _ _ h1
          simp only [List.length_set] at hl2
          rw [dpllFuel_succ_branch_sat1 f n a a1 a2 hprop hA h1] at h
          simp only [Option.some.injEq, Prod.mk.injEq] at h
          obtain ⟨rfl, rfl⟩ := h
          omega

theorem dpllFuel_extends : ∀ (fuel : Nat) (f : Formula) (a a' : Assign) (r : Bool),
    dpllFuel f fuel a = some (a', r) → ∀ i, idx a i ≠ 0 → idx a' i = idx a i := by
  intro fuel
  induction fuel with
  | zero => intro f a a' r h; simp [dpllFuel] at h
  | succ n ih =>
    intro f a a' r h i hi
    rcases hprop : propagateF f a with _ | ⟨a1, (_ | _)⟩
    · rw [dpllFuel_succ_none f n a hprop] at h; cases h
    · rw [dpllFuel_succ_conflict f n a a1 hprop] at h
      simp only [Option.some.injEq, Prod.mk.injEq] at h
      obtain ⟨rfl, rfl⟩ := h
      exact propagateF_extends f a _ false hprop i hi
    · have hext1 : idx a1 i = idx a i := propagateF_extends f a a1 true hprop i hi
      have hi1 : idx a1 i ≠ 0 := by rw [hext1]; exact hi
      cases hA : allAssigned f.nv a1 with
      | true =>
        rw [dpllFuel_succ_sat f n a a1 hprop hA] at h
        simp only [Option.some.injEq, Prod.mk.injEq] at h
        obtain ⟨rfl, rfl⟩ := h
        exact hext1
      | false =>
        obtain ⟨j, hj1, hjn, hjv, hj0⟩ := pick_spec f.nv a1 hA
        have hij : j ≠ i := fun he => hi1 (he ▸ hj0)
        have hs1 : idx (a1.set (pickUnassigned f.nv a1).natAbs 1) i = idx a1 i := by
          rw [hjv]; exact idx_set_ne a1 j i 1 hij
        rcases h1 : dpllFuel f n (a1.set (pickUnassigned f.nv a1).natAbs 1)
            with _ | ⟨a2, (_ | _)⟩
        · rw [dpllFuel_succ_branch_none1 f n a a1 hprop hA h1] at h; cases h
        · have hext2 : idx a2 i = idx a1 i := by
            rw [← hs1]
            exact ih f _ _ _ h1 i (by rw [hs1]; exact hi1)
          have hi2 : idx a2 i ≠ 0 := by rw [hext2]; exact hi1
          have hs2 : idx (a2.set (pickUnassigned f.nv a1).natAbs (-1)) i = idx a2 i := by
            rw [hjv]; exact idx_set_ne a2 j i (-1) hij
          rcases h2 : dpllFuel f n (a2.set (pickUnassigned f.nv a1).natAbs (-1))
              with _ | ⟨a3, (_ | _)⟩
          · rw [dpllFuel_succ_branch_none2 f n a a1 a2 hprop hA h1 h2] at h; cases h
          · have hext3 : idx a3 i = idx a2 i := by
              rw [← hs2]
              exact ih f _ _ _ h2 i (by rw [hs2]; exact hi2)
            rw [dpllFuel_succ_branch_unsat f n a a1 a2 a3 hprop hA h1 h2] at h
            simp only [Option.some.injEq, Prod.mk.injEq] at h
            obtain ⟨rfl, rfl⟩ := h
            rw [hjv, idx_set_ne a3 j i 0 hij, hext3, hext2, hext1]
          · have hext3 : idx a3 i = idx a2 i := by
              rw [← hs2]
              exact ih f _ _ _ h2 i (by rw [hs2]; exact hi2)
            rw [dpllFuel_succ_branch_sat2 f n a a1 a2 a3 hprop hA h1 h2] at h
            simp only [Option.some.injEq, Prod.mk.injEq] at h
            obtain ⟨rfl, rfl⟩ := h
            rw [hext3, hext2, hext1]
        · have hext2 : idx a2 i = idx a1 i := by
            rw [← hs1]
            exact ih f _ _ _ h1 i (by rw [hs1]; exact hi1)
          rw [dpllFuel_succ_branch_sat1 f n a a1 a2 hprop hA h1] at h
          simp only [Option.some.injEq, Prod.mk.injEq] at h
          obtain ⟨rfl, rfl⟩ := h
          rw [hext2, hext1]

theorem dpllFuel_zeros_le (fuel : Nat) (f : Formula) (a a' : Assign) (r : Bool)
    (h : dpllFuel f fuel a = some (a', r)) : zeros a' ≤ zeros a :=
  zeros_le_of_extends a a' (dpllFuel_length fuel f a a' r h).symm
    (fun i hi => by rw [dpllFuel_extends fuel f a a' r h i hi]; exact hi)

theorem dpllFuel_entry0 : ∀ (fuel : Nat) (f : Formula) (a a' : Assign) (r : Bool),
    (∀ c ∈ propClauses f, ∀ l ∈ c, l.natAbs ≠ 0) →
    dpllFuel f fuel a = some (a', r) → idx a' 0 = idx a 0 := by
  intro fuel
  induction fuel with
  | zero => intro f a a' r _ h; simp [dpllFuel] at h
  | succ n ih =>
    intro f a a' r hfr h
    rcases hprop : propagateF f a with _ | ⟨a1, (_ | _)⟩
    · rw [dpllFuel_succ_none f n a hprop] at h; cases h
    · rw [dpllFuel_succ_conflict f n a a1 hprop] at h
      simp only [Option.some.injEq, Prod.mk.injEq] at h
      obtain ⟨rfl, rfl⟩ := h
      exact propagateF_frame f a _ false 0 hfr hprop
    · have hext1 : idx a1 0 = idx a 0 := propagateF_frame f a a1 true 0 hfr hprop
      cases hA : allAssigned f.nv a1 with
      | true =>
        rw [dpllFuel_succ_sat f n a a1 hprop hA] at h
        simp only [Option.some.injEq, Prod.mk.injEq] at h
        obtain ⟨rfl, rfl⟩ := h
        exact hext1
      | false =>
        have hv0 : (pickUnassigned f.nv a1).natAbs ≠ 0 := by
          have := pick_natAbs_pos f.nv a1
          omega
        have hs1 : idx (a1.set (pickUnassigned f.nv a1).natAbs 1) 0 = idx a1 0 :=
          idx_set_ne a1 _ 0 1 hv0
        rcases h1 : dpllFuel f n (a1.set (pickUnassigned f.nv a1).natAbs 1)
            with _ | ⟨a2, (_ | _)⟩
        · rw [dpllFuel_succ_branch_none1 f n a a1 hprop hA h1] at h; cases h
        · have hext2 : idx a2 0 = idx a1 0 := by
            rw [← hs1]
            exact ih f _ _ _ hfr h1
          have hs2 : idx (a2.set (pickUnassigned f.nv a1).natAbs (-1)) 0 = idx a2 0 :=
            idx_set_ne a2 _ 0 (-1) hv0
          rcases h2 : dpllFuel f n (a2.set (pickUnassigned f.nv a1).natAbs (-1))
              with _ | ⟨a3, (_ | _)⟩
          · rw [dpllFuel_succ_branch_none2 f n a a1 a2 hprop hA h1 h2] at h; cases h
          · have hext3 : idx a3 0 = idx a2 0 := by
              rw [← hs2]
              exact ih f _ _ _ hfr h2
            rw [dpllFuel_succ_branch_unsat f n a a1 a2 a3 hprop hA h1 h2] at h
            simp only [Option.some.injEq, Prod.mk.injEq] at h
            obtain ⟨rfl, rfl⟩ := h
            rw [idx_set_ne a3 _ 0 0 hv0, hext3, hext2, hext1]
          · have hext3 : idx a3 0 = idx a2 0 := by
              rw [← hs2]
              exact ih f _ _ _ hfr h2
            rw [dpllFuel_succ_branch_sat2 f n a a1 a2 a3 hprop hA h1 h2] at h
            simp only [Option.some.injEq, Prod.mk.injEq] at h
            obtain ⟨rfl, rfl⟩ := h
            rw [hext3, hext2, hext1]
        · have hext2 : idx a2 0 = idx a1 0 := by
            rw [← hs1]
            exact ih f _ _ _ hfr h1
          rw [dpllFuel_succ_branch_sat1 f n a a1 a2 hprop hA h1] at h
          simp only [Option.some.injEq, Prod.mk.injEq] at h
          obtain ⟨rfl, rfl⟩ := h
          rw [hext2, hext1]

theorem dpllFuel_sat : ∀ (fuel : Nat) (f : Formula) (a a' : Assign),
    dpllFuel f fuel a = some (a', true) →
    allAssigned f.nv a' = true ∧
      ∀ c ∈ propClauses f, clauseSatisfiedB a' c = true ∨ 2 ≤ (unassignedLits a' c).length := by
  intro fuel
  induction fuel with
  | zero => intro f a a' h; simp [dpllFuel] at h
  | succ n ih =>
    intro f a a' h
    rcases hprop : propagateF f a with _ | ⟨a1, (_ | _)⟩
    · rw [dpllFuel_succ_none f n a hprop] at h; cases h
    · rw [dpllFuel_succ_conflict f n a a1 hprop] at h
      simp at h
    · cases hA : allAssigned f.nv a1 with
      | true =>
        rw [dpllFuel_succ_sat f n a a1 hprop hA] at h
        simp only [Option.some.injEq, Prod.mk.injEq] at h
        obtain ⟨rfl, -⟩ := h
        exact ⟨hA, propagateF_success f a _ hprop⟩
      | false =>
        rcases h1 : dpllFuel f n (a1.set (pickUnassigned f.nv a1).natAbs 1)
            with _ | ⟨a2, (_ | _)⟩
        · rw [dpllFuel_succ_branch_none1 f n a a1 hprop hA h1] at h; cases h
        · rcases h2 : dpllFuel f n (a2.set (pickUnassigned f.nv a1).natAbs (-1))
              with _ | ⟨a3, (_ | _)⟩
          · rw [dpllFuel_succ_branch_none2 f n a a1 a2 hprop hA h1 h2] at h; cases h
          · rw [dpllFuel_succ_branch_unsat f n a a1 a2 a3 hprop hA h1 h2] at h
            simp at h
          · rw [dpllFuel_succ_branch_sat2 f n a a1 a2 a3 hprop hA h1 h2] at h
            simp only [Option.some.injEq, Prod.mk.injEq] at h
            obtain ⟨rfl, -⟩ := h
            exact ih f _ _ h2
        · rw [dpllFuel_succ_branch_sat1 f n a a1 a2 hprop hA h1] at h
          simp only [Option.some.injEq, Prod.mk.injEq] at h
          obtain ⟨rfl, -⟩ := h
          exact ih f _ _ h1

theorem dpllFuel_conflict_of_empty (f : Formula) (hmem : ([] : Clause) ∈ propClauses f)
    (fuel : Nat) (a : Assign) :
    ∃ a1, dpllFuel f (fuel + 1) a = some (a1, false) := by
  obtain ⟨a1, hp⟩ := propagateF_conflict_of_empty f a hmem
  exact ⟨a1, dpllFuel_succ_conflict f fuel a a1 hp⟩

/-! Fuel sufficiency: the recursion depth of DPLL is bounded by the number
of unassigned variables, so numVariables + 1 fuel always suffices for a
formula meeting the construction contract of the spec (non-zero literals
of magnitude at most numVariables). -/

theorem dpllFuel_suff (f : Formula)
    (hwf : ∀ c ∈ propClauses f, ∀ l ∈ c, l ≠ 0 ∧ l.natAbs ≤ f.nv) :
    ∀ (n : Nat) (a : Assign), a.length = f.nv + 1 → idx a 0 = 0 →
    zeros a ≤ n + 1 → (dpllFuel f (n + 1) a).isSome = true := by
  have hfr0 : ∀ c ∈ propClauses f, ∀ l ∈ c, l.natAbs ≠ 0 := by
    intro c hc l hl
    have := (hwf c hc l hl).1
    simpa [Int.natAbs_eq_zero] using this
  intro n
  induction n with
  | zero =>
    intro a hlen h0 hz
    have hwfa : ∀ c ∈ propClauses f, ∀ l ∈ c, l.natAbs < a.length := by
      intro c hc l hl
      have := (hwf c hc l hl).2
      omega
    have hps := propagateF_suff f a hwfa
    rcases hprop : propagateF f a with _ | ⟨a1, (_ | _)⟩
    · rw [hprop] at hps; simp at hps
    · rw [dpllFuel_succ_conflict f 0 a a1 hprop]; rfl
    · cases hA : allAssigned f.nv a1 with
      | true => rw [dpllFuel_succ_sat f 0 a a1 hprop hA]; rfl
      | false =>
        exfalso
        obtain ⟨j, hj1, hjn, hjv, hj0⟩ := pick_spec f.nv a1 hA
        have hlen1 : a1.length = a.length := propagateF_length f a a1 true hprop
        have h01 : idx a1 0 = 0 := by
          rw [propagateF_frame f a a1 true 0 hfr0 hprop]; exact h0
        have hz1 : zeros a1 ≤ zeros a := propagateF_zeros_le f a a1 true hprop
        have htwo : 2 ≤ zeros a1 :=
          two_le_zeros a1 0 j (by omega) (by omega) h01 hj0
        omega
  | succ m ih =>
    intro a hlen h0 hz
    have hwfa : ∀ c ∈ propClauses f, ∀ l ∈ c, l.natAbs < a.length := by
      intro c hc l hl
      have := (hwf c hc l hl).2
      omega
    have hps := propagateF_suff f a hwfa
    rcases hprop : propagateF f a with _ | ⟨a1, (_ | _)⟩
    · rw [hprop] at hps; simp at hps
    · rw [dpllFuel_succ_conflict f (m + 1) a a1 hprop]; rfl
    · cases hA : allAssigned f.nv a1 with
      | true => rw [dpllFuel_succ_sat f (m + 1) a a1 hprop hA]; rfl
      | false =>
        obtain ⟨j, hj1, hjn, hjv, hj0⟩ := pick_spec f.nv a1 hA
        have hlen1 : a1.length = a.length := propagateF_length f a a1 true hprop
        have h01 : idx a1 0 = 0 := by
          rw [propagateF_frame f a a1 true 0 hfr0 hprop]; exact h0
        have hz1 : zeros a1 ≤ zeros a := propagateF_zeros_le f a a1 true hprop
        have hjlt : j < a1.length := by omega
        have hlen_s1 : (a1.set (pickUnassigned f.nv a1).natAbs 1).length = f.nv + 1 := by
          rw [List.length_set]; omega
        have h0_s1 : idx (a1.set (pickUnassigned f.nv a1).natAbs 1) 0 = 0 := by
          rw [idx_set_ne a1 _ 0 1 (by omega : (pickUnassigned f.nv a1).natAbs ≠ 0)]
          exact h01
        have hz_s1 : zeros (a1.set (pickUnassigned f.nv a1).natAbs 1) ≤ m + 1 := by
          have : zeros (a1.set (pickUnassigned f.nv a1).natAbs 1) < zeros a1 := by
            rw [hjv]
            exact zeros_set_lt a1 j 1 (by norm_num) hjlt hj0
          omega
        have hs1 := ih (a1.set (pickUnassigned f.nv a1).natAbs 1) hlen_s1 h0_s1 hz_s1
        rcases h1 : dpllFuel f (m + 1) (a1.set (pickUnassigned f.nv a1).natAbs 1)
            with _ | ⟨a2, (_ | _)⟩
        · rw [h1] at hs1; simp at hs1
        · have hlen2 : a2.length = f.nv + 1 := by
            have := dpllFuel_length (m + 1) f _ _ _ h1
            rw [hlen_s1] at this
            exact this
          have h02 : idx a2 0 = 0 := by
            rw [dpllFuel_entry0 (m + 1) f _ _ _ hfr0 h1]
            exact h0_s1
          have hz2 : zeros a2 ≤ zeros (a1.set (pickUnassigned f.nv a1).natAbs 1) :=
            dpllFuel_zeros_le (m + 1) f _ _ _ h1
          have hvval : idx a2 (pickUnassigned f.nv a1).natAbs ≠ 0 := by
            have hset : idx (a1.set (pickUnassigned f.nv a1).natAbs 1)
                (pickUnassigned f.nv a1).natAbs = 1 := by
              rw [hjv]
              exact idx_set_self a1 j 1 hjlt
            have := dpllFuel_extends (m + 1) f _ _ _ h1
              (pickUnassigned f.nv a1).natAbs (by rw [hset]; norm_num)
            rw [this, hset]
            norm_num
          have hlen_s2 : (a2.set (pickUnassigned f.nv a1).natAbs (-1)).length = f.nv + 1 := by
            rw [List.length_set]; omega
          have h0_s2 : idx (a2.set (pickUnassigned f.nv a1).natAbs (-1)) 0 = 0 := by
            rw [idx_set_ne a2 _ 0 (-1) (by omega : (pickUnassigned f.nv a1).natAbs ≠ 0)]
            exact h02
          have hz_s2 : zeros (a2.set (pickUnassigned f.nv a1).natAbs (-1)) ≤ m + 1 := by
            rw [zeros_set_eq_of_ne_zero a2 _ (-1) (by norm_num) hvval]
            omega
          have hs2 := ih (a2.set (pickUnassigned f.nv a1).natAbs (-1)) hlen_s2 h0_s2 hz_s2
          rcases h2 : dpllFuel f (m + 1) (a2.set (pickUnassigned f.nv a1).natAbs (-1))
              with _ | ⟨a3, (_ | _)⟩
          · rw [h2] at hs2; simp at hs2
          · rw [dpllFuel_succ_branch_unsat f (m + 1) a a1 a2 a3 hprop hA h1 h2]; rfl
          · rw [dpllFuel_succ_branch_sat2 f (m + 1) a a1 a2 a3 hprop hA h1 h2]; rfl
        · rw [dpllFuel_succ_branch_sat1 f (m + 1) a a1 a2 hprop hA h1]; rfl

/-! The reset loop of solve erases every variable entry, so a solve started
from any residual assignment state behaves as one started from the freshly
constructed vector. -/

theorem foldl_set_length : ∀ (l : List Nat) (a : Assign),
    (l.foldl (fun b i => b.set i 0) a).length = a.length := by
  intro l
  induction l with
  | nil => intro a; rfl
  | cons j t ih =>
    intro a
    rw [List.foldl_cons, ih, List.length_set]

theorem foldl_set_idx : ∀ (l : List Nat) (a : Assign) (i : Nat),
    idx (l.foldl (fun b i => b.set i 0) a) i = if i ∈ l then 0 else idx a i := by
  intro l
  induction l with
  | nil => intro a i; simp
  | cons j t ih =>
    intro a i
    rw [List.foldl_cons, ih]
    by_cases hij : i = j
    · subst hij
      by_cases hmem : i ∈ t
      · simp [hmem]
      · simp [hmem, idx_set_zero_self]
    · by_cases hmem : i ∈ t
      · simp [hmem]
      · have hnc : i ∉ j :: t := by
          intro hc
          rcases List.mem_cons.mp hc with he | he
          · exact hij he
          · exact hmem he
        rw [if_neg hmem, if_neg hnc]
        exact idx_set_ne a j i 0 (fun he => hij he.symm)

theorem resetLoop_eq_replicate (a : Assign) (nv : Nat) (hlen : a.length = nv + 1)
    (h0 : idx a 0 = 0) : resetLoop a nv = List.replicate (nv + 1) 0 := by
  apply list_eq_of_idx
  · rw [resetLoop, foldl_set_length, hlen, List.length_replicate]
  · intro i
    rw [resetLoop, foldl_set_idx, idx_replicate]
    by_cases hmem : i ∈ rangeFrom 1 nv
    · simp [hmem]
    · rw [if_neg hmem]
      by_cases hi : i = 0
      · subst hi; exact h0
      · refine idx_oob a i ?_
        rw [hlen]
        rcases Nat.lt_or_ge i (nv + 1) with hlt | hge
        · exact absurd ((mem_rangeFrom nv 1 i).mpr ⟨by omega, by omega⟩) hmem
        · exact hge

/-! The parser never stores an empty clause: parse pushes a clause only
when parseClause returned a non-empty vector. -/

theorem parseLines_no_empty : ∀ (lines : List (List Char)) (hf : Bool) (f : Formula)
    (err : Bool), ([] : Clause) ∉ f.clauses →
    ([] : Clause) ∉ (parseLines lines hf f err).1.clauses := by
  intro lines
  induction lines with
  | nil => intro hf f err h; exact h
  | cons line rest ih =>
    intro hf f err h
    simp only [parseLines]
    split
    · exact ih hf f err h
    · split
      · exact ih true _ _ h
      · split
        · exact ih hf f err h
        · next hcl =>
          refine ih hf _ err ?_
          intro hmem
          rcases List.mem_append.mp hmem with hm | hm
          · exact h hm
          · rcases List.mem_cons.mp hm with he | he
            · exact hcl (by rw [← he]; rfl)
            · simp at he

/-! Claim theorems. -/

/-- C1: the spec requires that on any UNSAT return of the recursive DPLL
call every variable set within the call, by decision or by propagation, is
unassigned again.  The code violates this: on the formula with clauses
[1] and [-1], the root DPLL call starts from the fresh assignment [0, 0],
unit propagation sets variable 1 to true, the second clause conflicts, and
the call returns UNSAT with assigns = [0, 1], not restored to [0, 0].
Only the branch decision variable is ever reset (line assigns[abs(var)] = 0);
propagated variables are never undone. -/
theorem unsat_leaves_propagated_assignment :
    dpllFuel fUnit2 (fUnit2.nv + 1) [0, 0] = some ([0, 1], false) ∧
      solveR fUnit2 = some ([0, 1], false) ∧ ([0, 1] : Assign) ≠ [0, 0] := by
  decide

/-- C2: the spec requires that an UNSAT verdict agrees with brute-force
enumeration finding no model.  The code violates this: on the clauses
(-1 2), (-1 -2), (1 -2) the engine answers UNSAT, because the assignment
2 := true forced by unit propagation inside the failed branch 1 := true is
never undone and poisons the branch 1 := false; yet the total assignment
{1 = false, 2 = false} satisfies every clause, as brute-force enumeration
over all four assignments confirms. -/
theorem unsat_verdict_on_satisfiable_formula :
    solveR fLeak = some ([0, 0, 1], false) ∧ bruteForceHasModel fLeak = true ∧
      formulaHolds fLeak [false, false] = true := by
  decide

/-- C3: the claim says parsing the header "p cnf V C" yields
numVariables = V and numClauses = C.  The code swaps them: parse calls
parseHeader(line, formula.numClauses, formula.numVariables) against the
parameter list (line, numVars, numClauses), so on "p cnf 3 1" the parsed
Formula has numVariables = 1 and numClauses = 3, whatever garbage the
default-constructed fields held. -/
theorem header_counts_swapped :
    (CNFparse [hdr31] 41 (-7)).1.numVariables = 1 ∧
      (CNFparse [hdr31] 41 (-7)).1.numClauses = 3 := by
  decide

/-- C4 counterexample: on the input "p cnf 1 1" followed by the clause
line "0" (an empty clause), the parser stores nothing at all: the
resulting Formula contains no clause, in particular not the empty clause
the claim says it contains. -/
theorem empty_clause_dropped_by_parse :
    (CNFparse [hdr11, lineZero] 41 (-7)).1.clauses = [] ∧
      ([] : Clause) ∉ (CNFparse [hdr11, lineZero] 41 (-7)).1.clauses := by
  decide

/-- C4 amended: the parser silently omits every empty clause from the
stored collection, so no parse result ever contains one; and solving any
Formula that does contain an empty clause among the numClauses clauses the
propagator scans returns UNSAT. -/
theorem empty_clause_amended :
    (∀ (lines : List (List Char)) (nv0 nc0 : Int),
      ([] : Clause) ∉ (CNFparse lines nv0 nc0).1.clauses) ∧
    ∀ f : Formula, ([] : Clause) ∈ propClauses f →
      ∃ a, solveR f = some (a, false) := by
  constructor
  · intro lines nv0 nc0
    exact parseLines_no_empty lines false _ false (by simp)
  · intro f hmem
    unfold solveR solveFrom
    exact dpllFuel_conflict_of_empty f hmem f.nv _

/-- C4 witness: the empty-clause Formula is solved UNSAT. -/
theorem empty_clause_amended_witness :
    ([] : Clause) ∈ propClauses fEmptyClause ∧
      ∃ a, solveR fEmptyClause = some (a, false) :=
  ⟨by decide, empty_clause_amended.2 fEmptyClause (by decide)⟩

/-- C5: whenever solve returns SAT on a Formula whose declared numClauses
equals the number of stored clauses (and whose literals meet the
construction contract: non-zero, magnitude at most numVariables), the
returned assignment is a complete model: every variable 1..numVariables
holds a concrete value and every clause contains a satisfied literal. -/
theorem sat_verdict_sound (f : Formula) (a : Assign)
    (hc : f.numClauses = (f.clauses.length : Int))
    (hwf : ∀ c ∈ f.clauses, ∀ l ∈ c, l ≠ 0 ∧ l.natAbs ≤ f.nv)
    (h : solveR f = some (a, true)) :
    (∀ i, 1 ≤ i → i ≤ f.nv → idx a i ≠ 0) ∧
      ∀ c ∈ f.clauses, clauseSatisfiedB a c = true := by
  have hnc : f.nc = f.clauses.length := by
    unfold Formula.nc
    rw [hc]
    omega
  have hpc : propClauses f = f.clauses := by
    unfold propClauses
    rw [hnc]
    exact List.take_length _
  unfold solveR solveFrom at h
  obtain ⟨hA, hsat⟩ := dpllFuel_sat (f.nv + 1) f _ a h
  rw [hpc] at hsat
  have hcomp : ∀ i, 1 ≤ i → i ≤ f.nv → idx a i ≠ 0 :=
    fun i h1 h2 => allAssigned_true_idx f.nv a hA i h1 h2
  refine ⟨hcomp, ?_⟩
  intro c hcmem
  rcases hsat c hcmem with hs | hlen2
  · exact hs
  · exfalso
    have hne : unassignedLits a c ≠ [] := by
      intro he
      rw [he] at hlen2
      simp at hlen2
    obtain ⟨l, hl⟩ := List.exists_mem_of_ne_nil _ hne
    have hl0 : idx a l.natAbs = 0 := by
      simpa [litUnassigned] using List.of_mem_filter hl
    obtain ⟨hlnz, hlle⟩ := hwf c hcmem l (List.mem_of_mem_filter hl)
    have h1 : 1 ≤ l.natAbs := by
      have := Int.natAbs_pos.mpr hlnz
      omega
    exact hcomp l.natAbs h1 hlle hl0

/-- C5 witness: on the satisfiable pair of clauses (1 2), (-1 -2) the
engine answers SAT with the complete model 1 = true, 2 = false. -/
theorem sat_verdict_sound_witness :
    solveR fPair = some ([0, 1, -1], true) ∧ idx [0, 1, -1] 1 ≠ 0 ∧
      idx [0, 1, -1] 2 ≠ 0 ∧ clauseSatisfiedB [0, 1, -1] [1, 2] = true ∧
      clauseSatisfiedB [0, 1, -1] [-1, -2] = true := by
  have h := sat_verdict_sound fPair [0, 1, -1] (by decide) (by decide) (by decide)
  exact ⟨by decide, h.1 1 (by decide) (by decide), h.1 2 (by decide) (by decide),
    h.2 [1, 2] (by decide), h.2 [-1, -2] (by decide)⟩

/-- C6: the claim says a header lacking the tokens "p"/"cnf" is rejected
before any solve attempt.  The code only prints "Invalid header" (the
error flag here), still stores the two header ints, finishes parsing, and
returns a Formula on which the core then runs: on the input "p xxx 1 1",
"1 0" parse returns a complete Formula and solve happily produces a
verdict. -/
theorem invalid_header_not_rejected :
    CNFparse [hdrBad, lineOne] 41 (-7) =
        ({ numVariables := 1, numClauses := 1, clauses := [[1]] }, true) ∧
      (solveR { numVariables := 1, numClauses := 1, clauses := [[1]] }).isSome = true := by
  decide

/-- C7: every clause access formula.clauses[i], i < numClauses, of the
propagator is in bounds exactly under the precondition
numClauses ≤ clauses.size, and the parser can violate that precondition:
on "p cnf 1 1" with the empty-clause line "0" it stores no clause while
the header fields count one. -/
theorem clause_access_bounds :
    (∀ (f : Formula) (i : Nat), f.nc ≤ f.clauses.length → i < f.nc →
      (f.clauses[i]?).isSome = true ∧ (propClauses f)[i]? = f.clauses[i]?) ∧
    (CNFparse [hdr11, lineZero] 41 (-7)).1.clauses.length <
      (CNFparse [hdr11, lineZero] 41 (-7)).1.nc := by
  refine ⟨?_, by decide⟩
  intro f i hle hi
  have hlt : i < f.clauses.length := by omega
  constructor
  · simp [List.getElem?_eq_getElem hlt]
  · unfold propClauses
    rw [List.getElem?_take, if_pos hi]

/-- C7 witness: instantiated on the two-clause formula. -/
theorem clause_access_bounds_witness :
    fUnit2.nc ≤ fUnit2.clauses.length ∧ (0 : Nat) < fUnit2.nc ∧
      (fUnit2.clauses[0]?).isSome = true ∧
      (propClauses fUnit2)[0]? = fUnit2.clauses[0]? := by
  refine ⟨by decide, by decide, ?_, ?_⟩
  · exact (clause_access_bounds.1 fUnit2 0 (by decide) (by decide)).1
  · exact (clause_access_bounds.1 fUnit2 0 (by decide) (by decide)).2

/-- C8: solve first resets every variable entry 1..numVariables to
unassigned, so two solve runs on the same Formula from any two assignment
vectors of the right size (entry 0 unassigned, as the constructor makes it
and nothing ever writes it) return literally identical results: the same
verdict and, on SAT, the same model.  The decision scan and the
true-before-false branch order are fixed in the code, so the whole run is
deterministic. -/
theorem solve_deterministic (f : Formula) (a b : Assign)
    (ha : a.length = f.nv + 1) (hb : b.length = f.nv + 1)
    (h0a : idx a 0 = 0) (h0b : idx b 0 = 0) :
    solveFrom f a = solveFrom f b := by
  unfold solveFrom
  rw [resetLoop_eq_replicate a f.nv ha h0a, resetLoop_eq_replicate b f.nv hb h0b]

/-- C8 witness: re-solving from two different residual assignment states. -/
theorem solve_deterministic_witness :
    ([0, 7] : Assign).length = fUnitOne.nv + 1 ∧ idx [0, 7] 0 = 0 ∧
      solveFrom fUnitOne [0, 7] = solveFrom fUnitOne [0, -1] := by
  refine ⟨by decide, by decide, ?_⟩
  exact solve_deterministic fUnitOne [0, 7] [0, -1] (by decide) (by decide)
    (by decide) (by decide)

/-- C9: on any Formula meeting the construction contract of the spec
(literals non-zero with magnitude at most numVariables), the recursive
search terminates: every recursive call strictly increases the number of
assigned variables (the branched variable is assigned before recursing and
propagation only adds assignments), so recursion depth is bounded by
numVariables and solve, run with fuel numVariables + 1, returns a
verdict. -/
theorem dpll_terminates (f : Formula)
    (hwf : ∀ c ∈ propClauses f, ∀ l ∈ c, l ≠ 0 ∧ l.natAbs ≤ f.nv) :
    (solveR f).isSome = true := by
  unfold solveR solveFrom
  rw [resetLoop_eq_replicate _ f.nv (by simp) (idx_replicate _ 0)]
  exact dpllFuel_suff f hwf f.nv _ (by simp) (idx_replicate _ 0)
    (by simp [zeros_replicate])

/-- C9 witness: the search terminates on the two-variable pair formula. -/
theorem dpll_terminates_witness : (solveR fPair).isSome = true :=
  dpll_terminates fPair (by decide)

/-- C10: unit propagation never rewrites an already-assigned variable:
every write of propagate targets a variable read as unassigned (value 0)
at that moment, so whenever propagate returns, every entry that was
non-zero before the call still holds exactly its old value — propagation
only extends the partial assignment. -/
theorem propagate_only_extends (f : Formula) (a a' : Assign) (r : Bool)
    (h : propagateF f a = some (a', r)) (i : Nat) (hi : idx a i ≠ 0) :
    idx a' i = idx a i :=
  propagateF_extends f a a' r h i hi

/-- C10 witness: propagating the unit clause (2) from the state where
variable 1 is already true leaves variable 1 untouched. -/
theorem propagate_only_extends_witness :
    propagateF fProp [0, 1, 0] = some ([0, 1, 1], true) ∧
      idx [0, 1, 1] 1 = idx [0, 1, 0] 1 := by
  refine ⟨by decide, ?_⟩
  exact propagate_only_extends fProp [0, 1, 0] [0, 1, 1] true (by decide) 1 (by decide)

end Dpll
